import Mathlib

/-!
# Verification of the training-orchestration core of `src/models/train_deit.py`

This file is a shallow embedding, in Lean 4, of the parts of the training
script `train_deit.py` that the specification talks about: the post-training
CSV metrics table, the stateful torchmetrics accumulators used in
`training_step`/`validation_step`, the gradient-norm diagnostics attached to
the `on_before_backward` / `on_train_epoch_end` hooks, the
confusion-matrix-derived per-class counts, the average-precision NaN handling,
the best-checkpoint policy of the configured `ModelCheckpoint` callback, and
the startup configuration parsing.

Modelling conventions:
* Python floats are modelled as exact rationals (`ℚ`) where only field
  operations occur, and as reals (`ℝ`) where a square root is taken.
* A possibly-NaN scalar is modelled as `Option ℚ`, with `none` standing for
  NaN; `torch.nan_to_num(·, nan=0.0)` becomes `Option.getD · 0`, and the
  NaN-propagation of ordinary arithmetic is made explicit.
* Python's `zip` truncates to the shortest input, exactly like `List.zip`.
-/

namespace TrainDeit

/-! ## Post-training metrics CSV (`main`, train_deit.py lines 199-250) -/

/-- The fixed header row written to `metrics_{current_time}.csv`
(train_deit.py lines 199-201, the `csv_metrics` list). -/
def csv_metrics : List String :=
  ["epoch", "train_loss", "train_precision", "train_recall", "train_f1", "train_map",
   "val_loss", "val_precision", "val_recall", "val_f1", "val_map",
   "grad_norm", "avg_grad_norm", "learning_rate"]

/-- `trainer.callback_metrics.get(key, 0)`: dictionary lookup with default `0`
(train_deit.py lines 231-245).  The dictionary is modelled as an association
list from metric name to value. -/
def getMetric (cm : List (String × ℚ)) (k : String) : ℚ :=
  match cm.lookup k with
  | some v => v
  | none => 0

/-- The thirteen metric values that `main` reads from
`trainer.callback_metrics` for one CSV row (train_deit.py lines 231-245).
Note that the same `cm` dictionary is read on every loop iteration; per
PyTorch Lightning semantics `callback_metrics` holds the most recently logged
(i.e. final-epoch) value of each metric. -/
def metricValuesRow (cm : List (String × ℚ)) : List ℚ :=
  [getMetric cm "train_loss", getMetric cm "train_precision", getMetric cm "train_recall",
   getMetric cm "train_f1", getMetric cm "train_map",
   getMetric cm "val_loss", getMetric cm "val_precision", getMetric cm "val_recall",
   getMetric cm "val_f1", getMetric cm "val_map",
   getMetric cm "grad_norm", getMetric cm "avg_grad_norm", getMetric cm "lr-Adam"]

/-- The post-training loop `for epoch in range(epochs)` (train_deit.py lines
229-250): one row per epoch index, each pairing the epoch index with the
metric values read from the same `trainer.callback_metrics` dictionary. -/
def postTrainingRows (epochs : ℕ) (cm : List (String × ℚ)) : List (ℕ × List ℚ) :=
  (List.range epochs).map (fun e => (e, metricValuesRow cm))

/-- A write to the metrics CSV file: either the schema header row or one
appended data row. -/
inductive CsvWrite where
  | headerRow (cols : List String)
  | dataRow (epoch : ℕ) (vals : List ℚ)
deriving DecidableEq

/-- Whether a CSV write is the schema header row. -/
def CsvWrite.isHeaderRow : CsvWrite → Bool
  | .headerRow _ => true
  | .dataRow _ _ => false

/-- The full sequence of writes `main` performs on
`metrics_{current_time}.csv`: the header is written once when the file is
created with mode `'w'` (train_deit.py lines 202-204), and after training the
data rows are appended with mode `'a'` (lines 226-250). -/
def metricsCsvWrites (epochs : ℕ) (cm : List (String × ℚ)) : List CsvWrite :=
  CsvWrite.headerRow csv_metrics ::
    (postTrainingRows epochs cm).map (fun r => CsvWrite.dataRow r.1 r.2)

/-! ## Startup configuration (`main`, train_deit.py lines 148-218) -/

/-- The error taxonomy of the specification's startup validation.  The source
never raises it; it is declared so that the absence of the check can be
stated. -/
inductive StartupError where
  | configurationError
deriving DecidableEq

/-- `epochs = int(os.getenv("EPOCHS", 10))` (train_deit.py line 155): the
environment value, when present, is used as-is, otherwise the default `10`. -/
def parseEpochs (env : Option ℤ) : ℤ :=
  env.getD 10

/-- The startup path of `main` between reading `EPOCHS` and constructing the
`Trainer` (train_deit.py lines 155-218): the parsed epoch count is passed
straight to `pl.Trainer(max_epochs=epochs, ...)` with no range check of any
kind, so startup always succeeds with the parsed value. -/
def startupEpochs (env : Option ℤ) : Except StartupError ℤ :=
  Except.ok (parseEpochs env)

/-! ## Average-precision NaN handling (train_deit.py lines 62-69 and 83-101)

`self.map = MulticlassAveragePrecision(num_classes=num_classes)` (line 43)
uses the default `average="macro"`, so `self.map(logits, y)` returns a 0-dim
(scalar) tensor that may be NaN.  A possibly-NaN scalar is `Option ℚ`
(`none` = NaN). -/

/-- `torch.nan_to_num(x, nan=0.0)` on one scalar: NaN becomes `0`, every
other value is unchanged (train_deit.py line 88). -/
def nanToNum (x : Option ℚ) : ℚ :=
  x.getD 0

/-- `tensor.mean()` over a 1-D tensor of possibly-NaN scalars: NaN
propagates into the mean; otherwise the arithmetic mean is taken.  A 0-dim
scalar is represented as a singleton list, for which `mean` is the value
itself. -/
def tensorMean (l : List (Option ℚ)) : Option ℚ :=
  if l.any Option.isNone then none
  else some ((l.map (fun x => x.getD 0)).sum / l.length)

/-- The AP vector `validation_step` builds before logging and per-class
iteration (train_deit.py lines 86-88): the 0-dim macro AP scalar is
unsqueezed to a length-1 tensor, then `nan_to_num` is applied elementwise. -/
def valApVector (ap : Option ℚ) : List ℚ :=
  [nanToNum ap]

/-- The `val_map` value `validation_step` logs: `ap.mean()` of the processed
AP vector (train_deit.py line 101). After `nan_to_num` no entry is NaN. -/
def valLoggedMap (ap : Option ℚ) : Option ℚ :=
  tensorMean ((valApVector ap).map some)

/-- The `train_map` value `training_step` logs: `ap.mean()` of the raw AP
scalar, with no NaN substitution anywhere on the training path
(train_deit.py lines 62-69). -/
def trainLoggedMap (ap : Option ℚ) : Option ℚ :=
  tensorMean [ap]

/-! ## The stateful torchmetrics objects (train_deit.py lines 40-44, 52-109)

`__init__` creates five torchmetrics objects (`self.precision`,
`self.recall`, `self.f1`, `self.map`, `self.confusion_matrix`).  Calling such
an object (its `forward`) appends the batch to the object's accumulated
update state and returns the metric computed on that batch alone.  The source
never calls `.reset()` or `.compute()` on any of them, and the same objects
are used by both `training_step` and `validation_step`. -/

/-- `torch.argmax(row)`: index of the first maximal entry of a logits row
(train_deit.py lines 58 and 79). -/
def argmaxIdx (l : List ℚ) : ℕ :=
  (l.enum.foldl (fun best p => if best.2 < p.2 then p else best) (0, l.headD 0)).1

/-- `preds = torch.argmax(logits, dim=1)`: row-wise argmax. -/
def argmaxRows (logits : List (List ℚ)) : List ℕ :=
  logits.map argmaxIdx

/-- The accumulated update state of the five torchmetrics objects created in
`__init__` (train_deit.py lines 40-44): each forward call appends its batch
arguments.  `precision`/`recall`/`f1`/`confusion_matrix` receive
`(preds, y)`; `map` receives `(logits, y)`. -/
structure MetricsState where
  precisionUpdates : List (List ℕ × List ℕ)
  recallUpdates : List (List ℕ × List ℕ)
  f1Updates : List (List ℕ × List ℕ)
  mapUpdates : List (List (List ℚ) × List ℕ)
  confusionUpdates : List (List ℕ × List ℕ)
deriving DecidableEq

/-- The freshly constructed metric objects of `__init__`: no accumulated
updates. -/
def freshMetricsState : MetricsState :=
  ⟨[], [], [], [], []⟩

/-- The effect of one `training_step` on the metric objects' accumulated
state (train_deit.py lines 52-71): `self.precision(preds, y)`,
`self.recall(preds, y)`, `self.f1(preds, y)`, `self.map(logits, y)` each
append an update; the confusion matrix is not touched in training. -/
def training_step_metrics (s : MetricsState) (logits : List (List ℚ)) (y : List ℕ) :
    MetricsState :=
  let preds := argmaxRows logits
  { s with
    precisionUpdates := s.precisionUpdates ++ [(preds, y)]
    recallUpdates := s.recallUpdates ++ [(preds, y)]
    f1Updates := s.f1Updates ++ [(preds, y)]
    mapUpdates := s.mapUpdates ++ [(logits, y)] }

/-- The effect of one `validation_step` on the metric objects' accumulated
state (train_deit.py lines 73-109): the same four objects as in training plus
`self.confusion_matrix(preds, y)` (line 90). -/
def validation_step_metrics (s : MetricsState) (logits : List (List ℚ)) (y : List ℕ) :
    MetricsState :=
  let preds := argmaxRows logits
  { s with
    precisionUpdates := s.precisionUpdates ++ [(preds, y)]
    recallUpdates := s.recallUpdates ++ [(preds, y)]
    f1Updates := s.f1Updates ++ [(preds, y)]
    mapUpdates := s.mapUpdates ++ [(logits, y)]
    confusionUpdates := s.confusionUpdates ++ [(preds, y)] }

/-- The effect of `on_train_epoch_end` on the metric objects
(train_deit.py lines 121-126): the hook only touches `grad_norm_values`;
no metric object is reset, so their accumulated state is unchanged. -/
def on_train_epoch_end_metrics (s : MetricsState) : MetricsState :=
  s

/-- One full epoch's effect on the metric objects: every training batch, then
every validation batch, then the epoch-end hook.  Nothing anywhere resets the
accumulated updates. -/
def runEpochMetrics (s : MetricsState) (trainBatches valBatches : List (List (List ℚ) × List ℕ)) :
    MetricsState :=
  on_train_epoch_end_metrics
    (valBatches.foldl (fun st b => validation_step_metrics st b.1 b.2)
      (trainBatches.foldl (fun st b => training_step_metrics st b.1 b.2) s))

/-! ## Gradient diagnostics (train_deit.py lines 46-47, 111-126)

Gradient tensors are modelled over `ℝ` because the source takes square
roots.  A parameter's `.grad` is `Option (List ℝ)` — `None` before the first
backward pass touches it. -/

/-- One parameter's contribution to the running sum in `on_before_backward`
(train_deit.py lines 114-116): skipped when `p.grad is None`, otherwise
`p.grad.norm(2).item() ** 2`, i.e. the square of the L2 norm. -/
noncomputable def paramGradContrib : Option (List ℝ) → ℝ
  | none => 0
  | some g => Real.sqrt ((g.map (fun x => x * x)).sum) ^ 2

/-- `total_norm ** 0.5` after summing the per-parameter contributions
(train_deit.py lines 113-117): the global gradient L2 norm. -/
noncomputable def totalGradNorm (params : List (Option (List ℝ))) : ℝ :=
  Real.sqrt ((params.map paramGradContrib).sum)

/-- The body of `on_before_backward` (train_deit.py lines 111-119): computes
the global norm of the *current* parameter gradients, appends it to
`self.grad_norm_values`, and logs it as `grad_norm`.  Returns the new log and
the logged scalar. -/
noncomputable def record_step (s : List ℝ) (params : List (Option (List ℝ))) :
    List ℝ × ℝ :=
  (s ++ [totalGradNorm params], totalGradNorm params)

/-- The body of `on_train_epoch_end` (train_deit.py lines 121-126): when
`self.grad_norm_values` is non-empty, log its arithmetic mean
(`np.mean`) as `avg_grad_norm` and clear the list; when empty, log nothing
and leave the list alone.  Returns the new log and the logged value, if
any. -/
noncomputable def on_train_epoch_end_grad (s : List ℝ) : List ℝ × Option ℝ :=
  if s.isEmpty then (s, none)
  else ([], some (s.sum / s.length))

/-! ## The per-step hook schedule of one optimization step

The source attaches its gradient recording to the `on_before_backward`
LightningModule hook (train_deit.py line 111).  Per the PyTorch Lightning
hook contract, `on_before_backward` is called immediately before
`loss.backward()`; the optimizer step is applied after the backward pass. -/

/-- The phases of one automatic-optimization training step in which the
source participates. -/
inductive StepPhase where
  | forwardAndLoss
  | onBeforeBackwardHook
  | backwardPass
  | optimizerStep
deriving DecidableEq

/-- The order in which the phases of one optimization step run:
`training_step` (forward + loss), then the `on_before_backward` hook, then
`loss.backward()`, then the optimizer update. -/
def lightningStepOrder : List StepPhase :=
  [StepPhase.forwardAndLoss, StepPhase.onBeforeBackwardHook,
   StepPhase.backwardPass, StepPhase.optimizerStep]

/-- The phase at which the source records the gradient norm: the
`on_before_backward` hook (train_deit.py line 111). -/
def recordingPhase : StepPhase :=
  StepPhase.onBeforeBackwardHook

/-- Position of a phase within one optimization step. -/
def phasePos (p : StepPhase) : ℕ :=
  lightningStepOrder.indexOf p

/-- The mutable state threaded through one optimization step: the parameter
gradients and the `grad_norm_values` log. -/
structure StepState where
  grads : List (Option (List ℝ))
  gradNormValues : List ℝ

/-- The effect of each phase on the step state: the hook records the norm of
the gradients as they are at that moment; the backward pass overwrites the
parameter gradients with this step's gradients `backwardGrads`; forward and
the optimizer update touch neither field. -/
noncomputable def runStepPhase (backwardGrads : List (List ℝ)) (s : StepState) :
    StepPhase → StepState
  | StepPhase.forwardAndLoss => s
  | StepPhase.onBeforeBackwardHook =>
      { s with gradNormValues := (record_step s.gradNormValues s.grads).1 }
  | StepPhase.backwardPass => { s with grads := backwardGrads.map some }
  | StepPhase.optimizerStep => s

/-- One full optimization step: the phases run in `lightningStepOrder`. -/
noncomputable def runStep (backwardGrads : List (List ℝ)) (s : StepState) : StepState :=
  lightningStepOrder.foldl (runStepPhase backwardGrads) s

/-! ## Best-checkpoint policy (train_deit.py lines 183-189) -/

/-- Modelled from the spec: the best-checkpoint decision of the
`ModelCheckpoint` callback configured with `monitor="val_map"`, `mode="max"`,
`save_top_k=1` (train_deit.py lines 183-189); the callback implementation
itself is external to the repository.  The best-seen value is initialized to
negative infinity, modelled as `Option ℚ` with `none` = −∞; a candidate
exceeds the best-seen value exactly when it is strictly greater. -/
def exceedsBest : Option ℚ → ℚ → Bool
  | none, _ => true
  | some b, v => decide (b < v)

/-- Modelled from the spec: one per-epoch evaluation of the best-checkpoint
policy — on strict improvement the best-seen value is replaced by the
candidate and a best-checkpoint is requested; otherwise (ties included)
nothing happens. -/
def bestStep (best : Option ℚ) (v : ℚ) : Option ℚ × Bool :=
  if exceedsBest best v then (some v, true) else (best, false)

/-- The best-seen value after folding the policy over a list of monitored
values, starting from `best`. -/
def bestAfter (best : Option ℚ) (vs : List ℚ) : Option ℚ :=
  vs.foldl (fun b v => (bestStep b v).1) best

/-- The epoch indices (counting from `i`) at which the best-checkpoint policy
emits a request, starting with best-seen value `best`. -/
def bestRequestsAux : Option ℚ → ℕ → List ℚ → List ℕ
  | _, _, [] => []
  | best, i, v :: rest =>
      if exceedsBest best v then i :: bestRequestsAux (some v) (i + 1) rest
      else bestRequestsAux best (i + 1) rest

/-- The epoch indices at which a best checkpoint is requested for a run whose
per-epoch monitored values are `vs`. -/
def bestRequests (vs : List ℚ) : List ℕ :=
  bestRequestsAux none 0 vs

/-! ## Confusion matrix and per-class counts (train_deit.py lines 90-94) -/

/-- Modelled from the spec: the entry `(i, j)` of the `C × C` confusion
matrix returned by the external torchmetrics call
`self.confusion_matrix(preds, y)` (train_deit.py line 90) — per the spec
glossary, the count of instances of true class `i` predicted as class `j`.
The batch is represented as the elementwise pairing of targets with
predictions. -/
def confusionCount (preds targets : List ℕ) (i j : ℕ) : ℕ :=
  (targets.zip preds).countP (fun q => q.1 == i && q.2 == j)

/-- `confusion_matrix.sum(axis=1)` at row `i`: the sum of row `i` of the
confusion matrix (train_deit.py line 94). -/
def rowSumCM (C : ℕ) (preds targets : List ℕ) (i : ℕ) : ℕ :=
  ∑ j ∈ Finset.range C, confusionCount preds targets i j

/-- `confusion_matrix.sum(axis=0)` at column `j`: the sum of column `j` of
the confusion matrix (train_deit.py line 93). -/
def colSumCM (C : ℕ) (preds targets : List ℕ) (j : ℕ) : ℕ :=
  ∑ i ∈ Finset.range C, confusionCount preds targets i j

/-- `np.diag(confusion_matrix)` at index `i`: the diagonal entry, i.e. the
true-positive count of class `i`. -/
def truePositives (preds targets : List ℕ) (i : ℕ) : ℕ :=
  confusionCount preds targets i i

/-- `false_positives = confusion_matrix.sum(axis=0) - np.diag(confusion_matrix)`
at class `j` (train_deit.py line 93). -/
def falsePositives (C : ℕ) (preds targets : List ℕ) (j : ℕ) : ℕ :=
  colSumCM C preds targets j - truePositives preds targets j

/-- `false_negatives = confusion_matrix.sum(axis=1) - np.diag(confusion_matrix)`
at class `i` (train_deit.py line 94). -/
def falseNegatives (C : ℕ) (preds targets : List ℕ) (i : ℕ) : ℕ :=
  rowSumCM C preds targets i - truePositives preds targets i

/-- The number of batch elements predicted as class `j`. -/
def predictedCount (preds : List ℕ) (j : ℕ) : ℕ :=
  preds.countP (fun p => p == j)

/-- The number of batch elements whose ground-truth class is `i`. -/
def actualCount (targets : List ℕ) (i : ℕ) : ℕ :=
  targets.countP (fun t => t == i)

/-! ## The per-class logging loop of `validation_step`
(train_deit.py lines 104-107) -/

/-- The `false_positives` array as a length-`C` list. -/
def fpList (C : ℕ) (preds targets : List ℕ) : List ℕ :=
  (List.range C).map (falsePositives C preds targets)

/-- The `false_negatives` array as a length-`C` list. -/
def fnList (C : ℕ) (preds targets : List ℕ) : List ℕ :=
  (List.range C).map (falseNegatives C preds targets)

/-- The entries produced by
`enumerate(zip(false_positives, false_negatives, ap))`
(train_deit.py line 104): `zip` truncates to its shortest argument, and `ap`
here is the unsqueezed, NaN-substituted macro-AP tensor of length 1
(`valApVector`).  Each entry is `(class index, fp, fn, class_ap)`. -/
def perClassLogEntries (C : ℕ) (preds targets : List ℕ) (ap : Option ℚ) :
    List (ℕ × ℕ × ℕ × ℚ) :=
  (((fpList C preds targets).zip ((fnList C preds targets).zip (valApVector ap))).enum).map
    (fun e => (e.1, e.2.1, e.2.2.1, e.2.2.2))

/-! ## Theorems -/

/-- Claim C2: the post-training loop over `range(epochs)` reads the same
`trainer.callback_metrics` dictionary — which holds only the final epoch's
values — on every iteration, so all `N` rows written after training carry
identical metric values, repeated `N` times; only the epoch index column
varies. -/
theorem post_training_rows_identical (epochs : ℕ) (cm : List (String × ℚ)) :
    (postTrainingRows epochs cm).map Prod.fst = List.range epochs ∧
    (postTrainingRows epochs cm).map Prod.snd
      = List.replicate epochs (metricValuesRow cm) := by
  constructor
  · simp [postTrainingRows, List.map_map, Function.comp_def]
  · simp only [postTrainingRows, List.map_map]
    rw [List.eq_replicate_iff]
    constructor
    · simp
    · intro b hb
      obtain ⟨e, _, hbe⟩ := List.mem_map.mp hb
      exact hbe.symm

/-- Counterexample to claim C5 as stated: the durable metrics table's schema
row contains none of the per-class columns the claim asserts — it is exactly
the 14 fixed columns. -/
theorem metrics_csv_no_per_class_columns :
    "class_0_fp" ∉ csv_metrics ∧ "class_0_fn" ∉ csv_metrics ∧
    "class_0_ap" ∉ csv_metrics ∧ csv_metrics.length = 14 := by
  decide

/-- Claim C5, amended: the durable metrics table has exactly the 14 fixed
columns epoch, train_loss, train_precision, train_recall, train_f1,
train_map, val_loss, val_precision, val_recall, val_f1, val_map, grad_norm,
avg_grad_norm, learning_rate — with no per-class columns — and its schema
header row is written exactly once, before the first data row. -/
theorem metrics_csv_schema_amended (epochs : ℕ) (cm : List (String × ℚ)) :
    csv_metrics.length = 14 ∧
    (metricsCsvWrites epochs cm).head? = some (CsvWrite.headerRow csv_metrics) ∧
    (metricsCsvWrites epochs cm).countP CsvWrite.isHeaderRow = 1 ∧
    ∀ w ∈ (metricsCsvWrites epochs cm).tail, CsvWrite.isHeaderRow w = false := by
  refine ⟨by decide, rfl, ?_, ?_⟩
  · have hrows : ((postTrainingRows epochs cm).map
        (fun r => CsvWrite.dataRow r.1 r.2)).countP CsvWrite.isHeaderRow = 0 := by
      rw [List.countP_eq_zero]
      intro w hw
      obtain ⟨r, _, hrw⟩ := List.mem_map.mp hw
      simp [← hrw, CsvWrite.isHeaderRow]
    simp [metricsCsvWrites, List.countP_cons, hrows, CsvWrite.isHeaderRow]
  · intro w hw
    obtain ⟨r, _, hrw⟩ := List.mem_map.mp hw
    simp [← hrw, CsvWrite.isHeaderRow]

/-- Counterexample to claim C8 as stated: a NaN average-precision value is
not substituted by 0 in the training pipeline — `training_step` logs the NaN
unchanged. -/
theorem train_map_nan_not_substituted :
    trainLoggedMap none = none ∧ trainLoggedMap none ≠ some 0 := by
  decide

/-- Claim C8, amended: in the validation pipeline the (already
macro-averaged) average-precision scalar, unsqueezed to length 1, has NaN
replaced by 0 before logging, and no error is raised; the training pipeline
performs no NaN substitution and logs the average-precision value
unchanged. -/
theorem ap_nan_handling_amended (ap : Option ℚ) :
    valLoggedMap ap = some (nanToNum ap) ∧ trainLoggedMap ap = ap := by
  constructor
  · simp [valLoggedMap, valApVector, tensorMean]
  · cases ap <;> simp [trainLoggedMap, tensorMean]

/-- Counterexample to claim C9 as stated: with the target epoch count set to
0, startup succeeds — no `ConfigurationError` (or any other validation
failure) occurs anywhere between reading `EPOCHS` and constructing the
trainer. -/
theorem epochs_zero_no_configuration_error :
    startupEpochs (some 0) = Except.ok 0 ∧
    startupEpochs (some 0) ≠ Except.error StartupError.configurationError := by
  refine ⟨rfl, ?_⟩
  intro h
  simp [startupEpochs] at h

/-- Claim C9, amended: the configured target epoch count is never validated:
any value, including 0, is accepted at startup and passed to the trainer
unchanged (the unset default being 10); with a count of 0 the post-training
loop writes zero data rows. -/
theorem epochs_unvalidated_amended :
    (∀ env : Option ℤ, startupEpochs env = Except.ok (parseEpochs env)) ∧
    parseEpochs (some 0) = 0 ∧ parseEpochs none = 10 ∧
    (∀ cm : List (String × ℚ), postTrainingRows 0 cm = []) :=
  ⟨fun _ => rfl, rfl, rfl, fun _ => rfl⟩

lemma trainFold_precisionUpdates (tb : List (List (List ℚ) × List ℕ)) :
    ∀ s : MetricsState,
      (tb.foldl (fun st b => training_step_metrics st b.1 b.2) s).precisionUpdates
        = s.precisionUpdates ++ tb.map (fun b => (argmaxRows b.1, b.2)) := by
  induction tb with
  | nil => intro s; simp
  | cons b tb ih =>
      intro s
      rw [List.foldl_cons, ih]
      simp [training_step_metrics, List.append_assoc]

lemma trainFold_confusionUpdates (tb : List (List (List ℚ) × List ℕ)) :
    ∀ s : MetricsState,
      (tb.foldl (fun st b => training_step_metrics st b.1 b.2) s).confusionUpdates
        = s.confusionUpdates := by
  induction tb with
  | nil => intro s; simp
  | cons b tb ih =>
      intro s
      rw [List.foldl_cons, ih]
      simp [training_step_metrics]

lemma valFold_precisionUpdates (vb : List (List (List ℚ) × List ℕ)) :
    ∀ s : MetricsState,
      (vb.foldl (fun st b => validation_step_metrics st b.1 b.2) s).precisionUpdates
        = s.precisionUpdates ++ vb.map (fun b => (argmaxRows b.1, b.2)) := by
  induction vb with
  | nil => intro s; simp
  | cons b vb ih =>
      intro s
      rw [List.foldl_cons, ih]
      simp [validation_step_metrics, List.append_assoc]

lemma valFold_confusionUpdates (vb : List (List (List ℚ) × List ℕ)) :
    ∀ s : MetricsState,
      (vb.foldl (fun st b => validation_step_metrics st b.1 b.2) s).confusionUpdates
        = s.confusionUpdates ++ vb.map (fun b => (argmaxRows b.1, b.2)) := by
  induction vb with
  | nil => intro s; simp
  | cons b vb ih =>
      intro s
      rw [List.foldl_cons, ih]
      simp [validation_step_metrics, List.append_assoc]

/-- Counterexample to claim C3 as stated: after one training batch, one
validation batch, and the epoch-end hook, the metric accumulator state is
not the clean (empty) accumulator — in fact the precision metric's
accumulated updates hold the training-phase batch alongside the
validation-phase one. -/
theorem metric_state_not_reset :
    on_train_epoch_end_metrics
        (validation_step_metrics
          (training_step_metrics freshMetricsState [[0, 1]] [1]) [[1, 0]] [0])
      ≠ freshMetricsState ∧
    (validation_step_metrics
        (training_step_metrics freshMetricsState [[0, 1]] [1]) [[1, 0]] [0]).precisionUpdates
      = [([1], [1]), ([0], [0])] := by
  decide

/-- Claim C3, amended: nothing ever resets the metric accumulators — the
epoch-end hook leaves them untouched, and across a whole epoch (training
batches, then validation batches, then the hook) the accumulated update
lists only grow: the state carried in from earlier epochs is preserved and
the training-phase and validation-phase updates of the five shared metric
objects accumulate together in the same state. -/
theorem metric_state_accumulates (s : MetricsState)
    (tb vb : List (List (List ℚ) × List ℕ)) :
    on_train_epoch_end_metrics s = s ∧
    (runEpochMetrics s tb vb).precisionUpdates
      = s.precisionUpdates ++ tb.map (fun b => (argmaxRows b.1, b.2))
          ++ vb.map (fun b => (argmaxRows b.1, b.2)) ∧
    (runEpochMetrics s tb vb).confusionUpdates
      = s.confusionUpdates ++ vb.map (fun b => (argmaxRows b.1, b.2)) := by
  refine ⟨rfl, ?_, ?_⟩
  · rw [runEpochMetrics, on_train_epoch_end_metrics, valFold_precisionUpdates,
      trainFold_precisionUpdates]
  · rw [runEpochMetrics, on_train_epoch_end_metrics, valFold_confusionUpdates,
      trainFold_confusionUpdates]

lemma paramGradContrib_some (g : List ℝ) :
    paramGradContrib (some g) = (g.map (fun x => x * x)).sum := by
  have h : (0:ℝ) ≤ (g.map (fun x => x * x)).sum := by
    apply List.sum_nonneg
    intro x hx
    obtain ⟨y, _, rfl⟩ := List.mem_map.mp hx
    exact mul_self_nonneg y
  simp [paramGradContrib, Real.sq_sqrt h]

/-- Counterexample to claim C4 as stated: when no steps were recorded, the
epoch-end hook does not return (log) 0 — it emits no average value at all. -/
theorem finalize_epoch_empty_no_zero :
    (on_train_epoch_end_grad []).2 = none ∧
    (on_train_epoch_end_grad []).2 ≠ some 0 := by
  constructor <;> simp [on_train_epoch_end_grad]

/-- Claim C4, amended: when at least one step was recorded, the epoch-end
hook emits the arithmetic mean of the recorded per-step norms and clears the
log; when no steps were recorded it emits no average value (it does not
fail), and the log is empty afterwards in either case.  In particular, two
steps whose parameter gradients are `[3], [0]` and `[0], [4]` record the
norms `[3, 4]`, and the hook then emits `3.5` and leaves the log empty. -/
theorem finalize_epoch_amended :
    (∀ s : List ℝ,
        (on_train_epoch_end_grad s).1 = [] ∧
        (on_train_epoch_end_grad s).2
          = if s.isEmpty then none else some (s.sum / s.length)) ∧
    (record_step ((record_step [] [some [3], some [0]]).1) [some [0], some [4]]).1
      = [3, 4] ∧
    on_train_epoch_end_grad
        ((record_step ((record_step [] [some [3], some [0]]).1) [some [0], some [4]]).1)
      = ([], some (7 / 2)) := by
  have h3 : totalGradNorm [some [3], some [0]] = 3 := by
    simp only [totalGradNorm, List.map_cons, List.map_nil, paramGradContrib_some,
      List.sum_cons, List.sum_nil]
    rw [show (3:ℝ) * 3 + 0 + ((0:ℝ) * 0 + 0 + 0) = 3 ^ 2 by norm_num]
    exact Real.sqrt_sq (by norm_num)
  have h4 : totalGradNorm [some [0], some [4]] = 4 := by
    simp only [totalGradNorm, List.map_cons, List.map_nil, paramGradContrib_some,
      List.sum_cons, List.sum_nil]
    rw [show (0:ℝ) * 0 + 0 + ((4:ℝ) * 4 + 0 + 0) = 4 ^ 2 by norm_num]
    exact Real.sqrt_sq (by norm_num)
  have hlog : (record_step ((record_step [] [some [3], some [0]]).1)
      [some [0], some [4]]).1 = [3, 4] := by
    simp [record_step, h3, h4]
  refine ⟨?_, hlog, ?_⟩
  · intro s
    cases s <;> simp [on_train_epoch_end_grad]
  · rw [hlog]
    simp [on_train_epoch_end_grad]
    norm_num

/-- Claim C1: the source attaches its gradient-norm recording to the
`on_before_backward` hook, which fires strictly before — not after — the
backward pass; the claimed ordering (record after backward, before the
optimizer step) is false, and at the first optimization step the recorded
scalar is 0 (all parameter gradients are still `None`), not the L2 norm 5 of
the gradients `[3]`, `[4]` that this step's backward pass then produces. -/
theorem grad_norm_recorded_before_backward :
    ¬ (phasePos StepPhase.backwardPass < phasePos recordingPhase ∧
       phasePos recordingPhase < phasePos StepPhase.optimizerStep) ∧
    (runStep [[3], [4]] { grads := [none, none], gradNormValues := [] }).gradNormValues
      = [0] ∧
    totalGradNorm [some [3], some [4]] = 5 := by
  refine ⟨by decide, ?_, ?_⟩
  · simp only [runStep, lightningStepOrder, List.foldl_cons, List.foldl_nil,
      runStepPhase, record_step]
    simp [totalGradNorm, paramGradContrib]
  · simp only [totalGradNorm, List.map_cons, List.map_nil, paramGradContrib_some,
      List.sum_cons, List.sum_nil]
    rw [show (3:ℝ) * 3 + 0 + ((4:ℝ) * 4 + 0 + 0) = 5 ^ 2 by norm_num]
    exact Real.sqrt_sq (by norm_num)

lemma mem_bestRequestsAux (vs : List ℚ) :
    ∀ (best : Option ℚ) (i j : ℕ),
      j ∈ bestRequestsAux best i vs ↔
        ∃ k, k < vs.length ∧ j = i + k ∧
          exceedsBest (bestAfter best (vs.take k)) (vs.getD k 0) = true := by
  induction vs with
  | nil =>
      intro best i j
      simp [bestRequestsAux]
  | cons v rest ih =>
      intro best i j
      by_cases h : exceedsBest best v = true
      · rw [bestRequestsAux, if_pos h]
        constructor
        · intro hj
          rcases List.mem_cons.mp hj with hj0 | hjtail
          · exact ⟨0, Nat.succ_pos _, by simpa using hj0, by simpa [bestAfter] using h⟩
          · obtain ⟨k, hk, hjk, hcond⟩ := (ih (some v) (i + 1) j).mp hjtail
            refine ⟨k + 1, by simpa using hk, by omega, ?_⟩
            simpa [bestAfter, bestStep, h] using hcond
        · rintro ⟨k, hk, hjk, hcond⟩
          cases k with
          | zero =>
              simp only [Nat.add_zero] at hjk
              subst hjk
              exact List.mem_cons_self _ _
          | succ k' =>
              apply List.mem_cons_of_mem
              apply (ih (some v) (i + 1) j).mpr
              refine ⟨k', by simpa using hk, by omega, ?_⟩
              simpa [bestAfter, bestStep, h] using hcond
      · rw [bestRequestsAux, if_neg h]
        constructor
        · intro hjtail
          obtain ⟨k, hk, hjk, hcond⟩ := (ih best (i + 1) j).mp hjtail
          refine ⟨k + 1, by simpa using hk, by omega, ?_⟩
          simpa [bestAfter, bestStep, h] using hcond
        · rintro ⟨k, hk, hjk, hcond⟩
          cases k with
          | zero =>
              exfalso
              rw [List.take_zero, List.getD_cons_zero] at hcond
              exact h (by simpa [bestAfter] using hcond)
          | succ k' =>
              apply (ih best (i + 1) j).mpr
              refine ⟨k', by simpa using hk, by omega, ?_⟩
              simpa [bestAfter, bestStep, h] using hcond

/-- Claim C6: a best-checkpoint request is emitted at epoch `j` exactly when
the monitored value strictly exceeds the best value seen over the preceding
epochs (the best-seen value starting at negative infinity, here `none`);
ties never trigger a request; and for the monitored values
`[0.1, 0.5, 0.3, 0.9, 0.9]` requests occur at indices 0, 1, 3 only. -/
theorem checkpoint_best_strict_improvement :
    (∀ (vs : List ℚ) (j : ℕ),
        j ∈ bestRequests vs ↔
          j < vs.length ∧
            exceedsBest (bestAfter none (vs.take j)) (vs.getD j 0) = true) ∧
    (∀ b : ℚ, exceedsBest (some b) b = false) ∧
    bestRequests [1/10, 1/2, 3/10, 9/10, 9/10] = [0, 1, 3] := by
  refine ⟨?_, ?_, by simp [bestRequests, bestRequestsAux, exceedsBest]; norm_num⟩
  · intro vs j
    rw [bestRequests, mem_bestRequestsAux]
    constructor
    · rintro ⟨k, hk, hjk, hcond⟩
      simp only [Nat.zero_add] at hjk
      subst hjk
      exact ⟨hk, hcond⟩
    · rintro ⟨hj, hcond⟩
      exact ⟨j, hj, (Nat.zero_add j).symm, hcond⟩
  · intro b
    simp [exceedsBest]

lemma sum_countP_fst (C j : ℕ) :
    ∀ l : List (ℕ × ℕ), (∀ q ∈ l, q.1 < C) →
      (∑ r ∈ Finset.range C, l.countP (fun q => q.1 == r && q.2 == j))
        = l.countP (fun q => q.2 == j) := by
  intro l
  induction l with
  | nil => intro _; simp
  | cons q l ih =>
      intro hl
      have hq : q.1 < C := hl q (List.mem_cons_self q l)
      have hrest : ∀ p ∈ l, p.1 < C := fun p hp => hl p (List.mem_cons_of_mem q hp)
      simp only [List.countP_cons]
      rw [Finset.sum_add_distrib, ih hrest]
      congr 1
      by_cases hj : q.2 = j
      · have hcong : ∀ r ∈ Finset.range C,
            (if (q.1 == r && q.2 == j) = true then (1:ℕ) else 0)
              = (if q.1 = r then 1 else 0) := by
          intro r _
          simp [hj]
        rw [Finset.sum_congr rfl hcong, Finset.sum_ite_eq]
        simp [Finset.mem_range.mpr hq, hj]
      · have hcong : ∀ r ∈ Finset.range C,
            (if (q.1 == r && q.2 == j) = true then (1:ℕ) else 0) = 0 := by
          intro r _
          simp [hj]
        rw [Finset.sum_congr rfl hcong]
        simp [hj]

lemma sum_countP_snd (C i : ℕ) :
    ∀ l : List (ℕ × ℕ), (∀ q ∈ l, q.2 < C) →
      (∑ c ∈ Finset.range C, l.countP (fun q => q.1 == i && q.2 == c))
        = l.countP (fun q => q.1 == i) := by
  intro l
  induction l with
  | nil => intro _; simp
  | cons q l ih =>
      intro hl
      have hq : q.2 < C := hl q (List.mem_cons_self q l)
      have hrest : ∀ p ∈ l, p.2 < C := fun p hp => hl p (List.mem_cons_of_mem q hp)
      simp only [List.countP_cons]
      rw [Finset.sum_add_distrib, ih hrest]
      congr 1
      by_cases hi : q.1 = i
      · have hcong : ∀ c ∈ Finset.range C,
            (if (q.1 == i && q.2 == c) = true then (1:ℕ) else 0)
              = (if q.2 = c then 1 else 0) := by
          intro c _
          simp [hi]
        rw [Finset.sum_congr rfl hcong, Finset.sum_ite_eq]
        simp [Finset.mem_range.mpr hq, hi]
      · have hcong : ∀ c ∈ Finset.range C,
            (if (q.1 == i && q.2 == c) = true then (1:ℕ) else 0) = 0 := by
          intro c _
          simp [hi]
        rw [Finset.sum_congr rfl hcong]
        simp [hi]

lemma countP_zip_snd (j : ℕ) :
    ∀ ts ps : List ℕ, ts.length = ps.length →
      (ts.zip ps).countP (fun q => q.2 == j) = ps.countP (fun p => p == j) := by
  intro ts
  induction ts with
  | nil =>
      intro ps h
      cases ps with
      | nil => simp
      | cons p ps => simp at h
  | cons t ts ih =>
      intro ps h
      cases ps with
      | nil => simp at h
      | cons p ps =>
          simp only [List.zip_cons_cons, List.countP_cons]
          rw [ih ps (by simpa using h)]

lemma countP_zip_fst (i : ℕ) :
    ∀ ts ps : List ℕ, ts.length = ps.length →
      (ts.zip ps).countP (fun q => q.1 == i) = ts.countP (fun t => t == i) := by
  intro ts
  induction ts with
  | nil =>
      intro ps h
      cases ps with
      | nil => simp
      | cons p ps => simp at h
  | cons t ts ih =>
      intro ps h
      cases ps with
      | nil => simp at h
      | cons p ps =>
          simp only [List.zip_cons_cons, List.countP_cons]
          rw [ih ps (by simpa using h)]

/-- Claim C7: for every class `i` of a validation batch, the false-positive
count (column sum minus diagonal) plus the true-positive count (diagonal)
equals the number of elements predicted as class `i`, and the false-negative
count (row sum minus diagonal) plus the true-positive count equals the number
of elements whose true class is `i`. -/
theorem confusion_matrix_identities (C : ℕ) (preds targets : List ℕ)
    (hlen : preds.length = targets.length)
    (hp : ∀ p ∈ preds, p < C) (ht : ∀ t ∈ targets, t < C)
    (i : ℕ) (hi : i < C) :
    falsePositives C preds targets i + truePositives preds targets i
        = predictedCount preds i ∧
    falseNegatives C preds targets i + truePositives preds targets i
        = actualCount targets i := by
  have hzf : ∀ q ∈ targets.zip preds, q.1 < C := by
    intro q hq
    exact ht q.1 (List.of_mem_zip hq).1
  have hzs : ∀ q ∈ targets.zip preds, q.2 < C := by
    intro q hq
    exact hp q.2 (List.of_mem_zip hq).2
  have hlen' : targets.length = preds.length := hlen.symm
  have hcol : colSumCM C preds targets i = predictedCount preds i := by
    simp only [colSumCM, confusionCount]
    rw [sum_countP_fst C i (targets.zip preds) hzf,
      countP_zip_snd i targets preds hlen']
    rfl
  have hrow : rowSumCM C preds targets i = actualCount targets i := by
    simp only [rowSumCM, confusionCount]
    rw [sum_countP_snd C i (targets.zip preds) hzs,
      countP_zip_fst i targets preds hlen']
    rfl
  have htp_col : truePositives preds targets i ≤ colSumCM C preds targets i := by
    rw [colSumCM]
    show confusionCount preds targets i i ≤ ∑ r ∈ Finset.range C, confusionCount preds targets r i
    rw [← Finset.sum_erase_add (Finset.range C) (fun r => confusionCount preds targets r i)
      (Finset.mem_range.mpr hi)]
    exact Nat.le_add_left _ _
  have htp_row : truePositives preds targets i ≤ rowSumCM C preds targets i := by
    rw [rowSumCM]
    show confusionCount preds targets i i ≤ ∑ c ∈ Finset.range C, confusionCount preds targets i c
    rw [← Finset.sum_erase_add (Finset.range C) (fun c => confusionCount preds targets i c)
      (Finset.mem_range.mpr hi)]
    exact Nat.le_add_left _ _
  constructor
  · rw [falsePositives, Nat.sub_add_cancel htp_col, hcol]
  · rw [falseNegatives, Nat.sub_add_cancel htp_row, hrow]

/-- Concrete witness for `confusion_matrix_identities`: a 3-class batch with
predictions `[0, 1, 1, 2]` and ground truth `[0, 1, 2, 2]`, at class 1. -/
theorem confusion_matrix_identities_witness :
    (([0, 1, 1, 2] : List ℕ).length = ([0, 1, 2, 2] : List ℕ).length ∧ (1:ℕ) < 3) ∧
    (falsePositives 3 [0, 1, 1, 2] [0, 1, 2, 2] 1
        + truePositives [0, 1, 1, 2] [0, 1, 2, 2] 1
        = predictedCount [0, 1, 1, 2] 1 ∧
     falseNegatives 3 [0, 1, 1, 2] [0, 1, 2, 2] 1
        + truePositives [0, 1, 1, 2] [0, 1, 2, 2] 1
        = actualCount [0, 1, 2, 2] 1) :=
  ⟨⟨by decide, by decide⟩,
    confusion_matrix_identities 3 [0, 1, 1, 2] [0, 1, 2, 2] (by decide)
      (by decide) (by decide) 1 (by decide)⟩

/-- Claim C10: in a validation step with more than one class, the per-class
logging loop zips the length-`C` false-positive and false-negative arrays
with the length-1 unsqueezed macro-AP tensor; `zip` truncates to the
shortest input, so per-class values are emitted for class index 0 only, and
classes `1..C-1` are never logged per-class. -/
theorem per_class_logging_truncated (C : ℕ) (hC : 1 < C)
    (preds targets : List ℕ) (ap : Option ℚ) :
    (perClassLogEntries C preds targets ap).map (fun e => e.1) = [0] ∧
    ∀ i, 0 < i → i ∉ (perClassLogEntries C preds targets ap).map (fun e => e.1) := by
  have hfp : fpList C preds targets ≠ [] := by
    simp only [fpList, ne_eq, List.map_eq_nil_iff, List.range_eq_nil]
    omega
  have hfn : fnList C preds targets ≠ [] := by
    simp only [fnList, ne_eq, List.map_eq_nil_iff, List.range_eq_nil]
    omega
  obtain ⟨f0, fs, hfps⟩ := List.exists_cons_of_ne_nil hfp
  obtain ⟨g0, gs, hfns⟩ := List.exists_cons_of_ne_nil hfn
  have hmain : (perClassLogEntries C preds targets ap).map (fun e => e.1) = [0] := by
    simp [perClassLogEntries, hfps, hfns, valApVector, List.enum]
  refine ⟨hmain, ?_⟩
  intro i hi hmem
  rw [hmain] at hmem
  simp at hmem
  omega

/-- Concrete witness for `per_class_logging_truncated`: ten classes, a
two-element batch, and a non-NaN macro-AP scalar — only class 0 is logged. -/
theorem per_class_logging_truncated_witness :
    (1:ℕ) < 10 ∧
    (perClassLogEntries 10 [0, 1] [1, 1] (some (1/2))).map (fun e => e.1) = [0] :=
  ⟨by decide,
    (per_class_logging_truncated 10 (by decide) [0, 1] [1, 1] (some (1/2))).1⟩

end TrainDeit
